import Mathlib

/-!
Verification of the MCPhelper agent-orchestration pipeline.

Shallow embedding of the Python modules
`backend/core/agent_orchestrator.py`, `backend/core/executor.py`,
`backend/core/summarizer.py`, `core/validator.py` and
`backend/utils/llm_client.py`.

Python objects that flow through the pipeline (JSON-decoded plans, tool
arguments, tool results) are modelled by the inductive type `Value`.
JSON numbers are modelled as integers (the claims under verification do
not involve floating-point arguments), and the `\uXXXX` string escape of
Python `json.loads` is not modelled.  Strings are Lean `String`s; Python
`str.replace`, `str.startswith`, containment and `str.strip` are modelled
by executable functions over the character list.
-/

set_option maxRecDepth 10000

/-- Model of a Python object as it appears in JSON-decoded plans, tool
arguments and tool results: `None`, booleans, integers, strings, lists
and string-keyed dicts (insertion-ordered association lists). -/
inductive Value where
  | null
  | bool (b : Bool)
  | num (n : Int)
  | str (s : String)
  | arr (elems : List Value)
  | obj (fields : List (String × Value))

/-- Python truthiness (`if not x`): `None`, `False`, `0`, `""`, `[]` and
an empty dict are falsy, everything else is truthy. -/
def truthy : Value → Bool
  | .null => false
  | .bool b => b
  | .num n => n != 0
  | .str s => s ≠ ""
  | .arr l => !l.isEmpty
  | .obj f => !f.isEmpty

/-- Python `dict.get`: the value bound to `k`, the last binding winning
(as produced by `json.loads` on duplicate keys), or `none`. -/
def pyGet (fields : List (String × Value)) (k : String) : Option Value :=
  match fields with
  | [] => none
  | (k', v) :: rest =>
    match pyGet rest k with
    | some r => some r
    | none => if k' = k then some v else none

/-- Whether `p` is a prefix of `s` (recursion on `p` first, so that the
empty-pattern case reduces without inspecting `s`). -/
def litPre : List Char → List Char → Bool
  | [], _ => true
  | _ :: _, [] => false
  | p :: ps, c :: cs => p == c && litPre ps cs

/-- Left-to-right, non-overlapping replacement of every occurrence of
`pat` by `rep`, the semantics of Python `str.replace` for a non-empty
pattern (the sources only ever replace the non-empty sentinel
`"PREVIOUS_RESULT"` and markdown fences).  The fuel argument makes the
recursion structural; every iteration consumes at least one input
character, so fuel equal to the input length never runs out. -/
def replaceAux (pat rep : List Char) : Nat → List Char → List Char
  | 0, s => s
  | _ + 1, [] => []
  | f + 1, c :: s =>
    if !pat.isEmpty && litPre pat (c :: s) then
      rep ++ replaceAux pat rep f ((c :: s).drop pat.length)
    else
      c :: replaceAux pat rep f s

/-- Python `s.replace(pat, rep)` on Lean strings. -/
def pyReplace (s pat rep : String) : String :=
  ⟨replaceAux pat.data rep.data s.data.length s.data⟩

/-- Containment of `p` as a contiguous substring of `s`
(Python `p in s` for strings). -/
def isSub (p : List Char) : List Char → Bool
  | [] => p = []
  | c :: t => litPre p (c :: t) || isSub p t

/-- Python `pat in s` for strings. -/
def strContains (pat s : String) : Bool :=
  isSub pat.data s.data

/-- Python `s.startswith(pre)`. -/
def strStarts (pre s : String) : Bool :=
  litPre pre.data s.data

/-- Python string whitespace (the characters removed by `str.strip`). -/
def isPyWs (c : Char) : Bool :=
  c = ' ' || c = '\t' || c = '\n' || c = '\r' || c = '\x0b' || c = '\x0c'

/-- Python `s.strip()`. -/
def pyStrip (s : String) : String :=
  ⟨((s.data.dropWhile isPyWs).reverse.dropWhile isPyWs).reverse⟩

/-- Python `s.lower()` (ASCII case folding, which is all the sources
feed it). -/
def strLower (s : String) : String :=
  ⟨s.data.map Char.toLower⟩

/-- Digit character for `d < 10`. -/
def digitChar (d : Nat) : Char := Char.ofNat (48 + d)

/-- Decimal digits of `n`, most significant first, accumulated onto
`acc`.  Structural recursion on fuel; any fuel `f` with `n < 10 ^ (f + 1)`
yields the correct digits, and the zero-fuel case is aligned so that
every sufficient fuel gives the same result. -/
def natStrAux : Nat → Nat → List Char → List Char
  | 0, n, acc => digitChar (n % 10) :: acc
  | f + 1, n, acc =>
    if n < 10 then digitChar n :: acc
    else natStrAux f (n / 10) (digitChar (n % 10) :: acc)

/-- Decimal representation of a natural number (fuel `n` always
suffices since `n < 10 ^ (n + 1)`). -/
def natStrChars (n : Nat) : List Char := natStrAux n n []

/-- Decimal representation of an integer (Python `str(int)` and the
JSON rendering of an integer). -/
def intStrChars (n : Int) : List Char :=
  if n < 0 then '-' :: natStrChars n.natAbs else natStrChars n.natAbs

/-- Python `str(n)` for an integer. -/
def intStr (n : Int) : String := ⟨intStrChars n⟩

mutual

/-- Python `repr` of a value.  Strings are wrapped in single quotes;
the conditional quote-switching and escaping Python `repr` performs
inside the quoted text is not modelled (no claim inspects the repr of a
string containing quotes). -/
def pyRepr : Value → String
  | .null => "None"
  | .bool true => "True"
  | .bool false => "False"
  | .num n => intStr n
  | .str s => "\x27" ++ s ++ "\x27"
  | .arr l => "[" ++ pyReprList l ++ "]"
  | .obj f => "\x7b" ++ pyReprFields f ++ "\x7d"

/-- Comma-separated reprs of the elements of a Python list. -/
def pyReprList : List Value → String
  | [] => ""
  | [v] => pyRepr v
  | v :: rest => pyRepr v ++ ", " ++ pyReprList rest

/-- Comma-separated `key: value` reprs of the items of a Python dict. -/
def pyReprFields : List (String × Value) → String
  | [] => ""
  | [(k, v)] => "\x27" ++ k ++ "\x27: " ++ pyRepr v
  | (k, v) :: rest => "\x27" ++ k ++ "\x27: " ++ pyRepr v ++ ", " ++ pyReprFields rest

end

/-- Python `str(v)`: the string itself for a string, the repr
otherwise. -/
def pyStr : Value → String
  | .str s => s
  | v => pyRepr v

/-- Opening brace character. -/
def lbrace : Char := '\x7b'

/-- Closing brace character. -/
def rbrace : Char := '\x7d'

/-- JSON string escaping of one character: `"` and `\` are escaped, as
are the control characters newline, tab and carriage return; every
other character is emitted verbatim. -/
def escChar (c : Char) : List Char :=
  if c = '"' then ['\\', '"']
  else if c = '\\' then ['\\', '\\']
  else if c = '\n' then ['\\', 'n']
  else if c = '\t' then ['\\', 't']
  else if c = '\r' then ['\\', 'r']
  else [c]

/-- JSON string escaping of a character sequence. -/
def escChars : List Char → List Char
  | [] => []
  | c :: rest => escChar c ++ escChars rest

mutual

/-- Compact JSON serialization of a value (the canonical raw text used
to quantify over "syntactically valid JSON" inputs). -/
def printJson : Value → List Char
  | .null => "null".data
  | .bool true => "true".data
  | .bool false => "false".data
  | .num n => intStrChars n
  | .str s => '"' :: (escChars s.data ++ ['"'])
  | .arr l => '[' :: (printElems l ++ [']'])
  | .obj f => lbrace :: (printMembers f ++ [rbrace])

/-- Comma-separated serializations of array elements. -/
def printElems : List Value → List Char
  | [] => []
  | [v] => printJson v
  | v :: rest => printJson v ++ ',' :: printElems rest

/-- Comma-separated serializations of object members. -/
def printMembers : List (String × Value) → List Char
  | [] => []
  | [(k, v)] => '"' :: (escChars k.data ++ '"' :: ':' :: printJson v)
  | (k, v) :: rest =>
    '"' :: (escChars k.data ++ '"' :: ':' :: printJson v) ++ ',' :: printMembers rest

end

/-- JSON whitespace (the characters `json.loads` skips between
tokens). -/
def isWs (c : Char) : Bool :=
  c = ' ' || c = '\n' || c = '\t' || c = '\r'

/-- Drop leading JSON whitespace. -/
def skipWs : List Char → List Char
  | [] => []
  | c :: r => if isWs c then skipWs r else c :: r

/-- Match a literal token, returning the remainder. -/
def lit (pat s : List Char) : Option (List Char) :=
  if litPre pat s then some (s.drop pat.length) else none

/-- Inverse of a JSON string escape character; unknown escapes (and the
unmodelled `\uXXXX` form) are parse failures. -/
def unescChar (c : Char) : Option Char :=
  if c = '"' then some '"'
  else if c = '\\' then some '\\'
  else if c = '/' then some '/'
  else if c = 'n' then some '\n'
  else if c = 't' then some '\t'
  else if c = 'r' then some '\r'
  else if c = 'b' then some (Char.ofNat 8)
  else if c = 'f' then some (Char.ofNat 12)
  else none

mutual

/-- Parse the body of a JSON string after the opening quote, up to and
including the closing quote. -/
def parseStrAux : List Char → Option (List Char × List Char)
  | [] => none
  | c :: rest =>
    if c = '"' then some ([], rest)
    else if c = '\\' then parseStrEsc rest
    else
      match parseStrAux rest with
      | some (s, r) => some (c :: s, r)
      | none => none

/-- Continue a JSON string parse right after a backslash. -/
def parseStrEsc : List Char → Option (List Char × List Char)
  | [] => none
  | e :: rest2 =>
    match unescChar e with
    | some d =>
      match parseStrAux rest2 with
      | some (s, r) => some (d :: s, r)
      | none => none
    | none => none

end

/-- Decimal digit test. -/
def isDigitCh (c : Char) : Bool := '0' ≤ c && c ≤ '9'

/-- Numeric value of a digit character. -/
def digitVal (c : Char) : Nat := c.toNat - 48

/-- Consume a maximal run of decimal digits, folding them onto `acc`. -/
def parseDigitsAux (acc : Nat) : List Char → Nat × List Char
  | [] => (acc, [])
  | c :: rest =>
    if isDigitCh c then parseDigitsAux (acc * 10 + digitVal c) rest
    else (acc, c :: rest)

/-- Parse a JSON integer (an optional minus sign followed by at least
one digit); fractional and exponent forms are not modelled. -/
def parseNum : List Char → Option (Value × List Char)
  | [] => none
  | c :: rest =>
    if c = '-' then
      match rest with
      | [] => none
      | d :: _ =>
        if isDigitCh d then
          let (n, r) := parseDigitsAux 0 rest
          some (.num (-(n : Int)), r)
        else none
    else if isDigitCh c then
      let (n, r) := parseDigitsAux 0 (c :: rest)
      some (.num (n : Int), r)
    else none

mutual

/-- Fuel-bounded recursive-descent JSON value parser (the model of
`json.loads`); returns the value and the unconsumed remainder. -/
def parseVal : Nat → List Char → Option (Value × List Char)
  | 0, _ => none
  | f + 1, s =>
    match skipWs s with
    | [] => none
    | c :: rest =>
      if c = '[' then
        match parseElems f rest with
        | some (l, r) => some (.arr l, r)
        | none => none
      else if c = lbrace then
        match parseMembers f rest with
        | some (m, r) => some (.obj m, r)
        | none => none
      else if c = '"' then
        match parseStrAux rest with
        | some (cs, r) => some (.str ⟨cs⟩, r)
        | none => none
      else if c = 'n' then
        match lit ['u', 'l', 'l'] rest with
        | some r => some (.null, r)
        | none => none
      else if c = 't' then
        match lit ['r', 'u', 'e'] rest with
        | some r => some (.bool true, r)
        | none => none
      else if c = 'f' then
        match lit ['a', 'l', 's', 'e'] rest with
        | some r => some (.bool false, r)
        | none => none
      else parseNum (c :: rest)

/-- Parse the elements of a JSON array after the opening bracket. -/
def parseElems : Nat → List Char → Option (List Value × List Char)
  | 0, _ => none
  | f + 1, s =>
    match skipWs s with
    | [] => none
    | c :: rest =>
      if c = ']' then some ([], rest)
      else parseElemsNE f (c :: rest)

/-- Parse a non-empty comma-separated element list up to and including
the closing bracket. -/
def parseElemsNE : Nat → List Char → Option (List Value × List Char)
  | 0, _ => none
  | f + 1, s =>
    match parseVal f s with
    | none => none
    | some (v, r) =>
      match skipWs r with
      | [] => none
      | d :: r2 =>
        if d = ',' then
          match parseElemsNE f r2 with
          | some (l, rr) => some (v :: l, rr)
          | none => none
        else if d = ']' then some ([v], r2)
        else none

/-- Parse the members of a JSON object after the opening brace. -/
def parseMembers : Nat → List Char → Option (List (String × Value) × List Char)
  | 0, _ => none
  | f + 1, s =>
    match skipWs s with
    | [] => none
    | c :: rest =>
      if c = rbrace then some ([], rest)
      else parseMembersNE f (c :: rest)

/-- Parse a non-empty comma-separated member list up to and including
the closing brace. -/
def parseMembersNE : Nat → List Char → Option (List (String × Value) × List Char)
  | 0, _ => none
  | f + 1, s =>
    match skipWs s with
    | [] => none
    | c :: rest =>
      if c = '"' then
        match parseStrAux rest with
        | none => none
        | some (kcs, r) =>
          match skipWs r with
          | ':' :: r2 =>
            match parseVal f r2 with
            | none => none
            | some (v, r3) =>
              match skipWs r3 with
              | [] => none
              | d :: r4 =>
                if d = ',' then
                  match parseMembersNE f r4 with
                  | some (m, rr) => some ((⟨kcs⟩, v) :: m, rr)
                  | none => none
                else if d = rbrace then some ([(⟨kcs⟩, v)], r4)
                else none
          | _ => none
      else none

end

/-- Fuel that suffices for any parseable input of length `n` (the
parser consumes at least one character for every three units of fuel
spent). -/
def fuelFor (n : Nat) : Nat := 3 * n + 8

/-- Model of Python `json.loads`: parse a complete JSON document,
rejecting trailing non-whitespace. -/
def jsonLoads (s : String) : Option Value :=
  match parseVal (fuelFor s.length) s.data with
  | some (v, rest) => if skipWs rest = [] then some v else none
  | none => none

/-- Model of the regex step `re.search(r'\[.*\]', text, re.DOTALL)` in
`LLMPlanValidator._extract_json`: the substring from the first `[` to
the last `]`, when the latter follows the former. -/
def extractSlice (cs : List Char) : Option (List Char) :=
  let a := cs.dropWhile (fun c => c != '[')
  let b := (a.reverse.dropWhile (fun c => c != ']')).reverse
  if b.isEmpty then none else some b

/-- `LLMPlanValidator._extract_json` (src/core/validator.py): locate a
bracketed substring and `json.loads` it, returning `[]` when no match
is found or decoding fails.  A successful parse of a `[...]` slice is
necessarily an array, so the non-array case also maps to `[]`. -/
def _extract_json (text : String) : List Value :=
  match extractSlice text.data with
  | none => []
  | some t =>
    match jsonLoads ⟨t⟩ with
    | some (.arr l) => l
    | _ => []

/-- VALIDATOR_PROMPT from src/prompts/validator_prompt.py. -/
def VALIDATOR_PROMPT : String :=
"You are a Plan Validator and Normalizer.\n\nYour task is to take a planner output and produce a FINAL EXECUTION PLAN\nthat is VALID JSON and can be safely parsed by a machine.\n\nRules (MANDATORY):\n- Output ONLY valid JSON.\n- Do NOT use markdown.\n- Do NOT include explanations, comments, or extra text.\n- Do NOT include code inside the plan.\n- Do NOT include triple backticks or formatting.\n- The output MUST be a JSON array of steps.\n\nValidation responsibilities:\n1. Remove any markdown fences (```json, ```).\n2. Fix invalid JSON syntax if possible.\n3. Ensure all keys are enclosed in double quotes.\n4. Ensure the structure is:\n   [\n     \x7b\n       \"step\": number,\n       \"tool\": string,\n       \"args\": object,\n       \"description\": string\n     \x7d\n   ]\n5. If code or long content appears in args, replace it with a short descriptive prompt.\n6. Preserve the original intent of the plan.\n7. If the plan is unrecoverable, return an EMPTY JSON ARRAY: []\n\nYou MUST NOT invent new steps.\nYou MUST NOT invent new tools.\nYou MUST NOT add explanations.\n\nReturn ONLY the corrected JSON.\n"

/-- Python `'k' in v`: key membership for a dict, element membership
for a list, substring test for a string; the remaining types raise
`TypeError`, modelled as an exception. -/
def pyContains (k : String) : Value → Except String Bool
  | .obj f => .ok (f.any (fun kv => kv.1 == k))
  | .arr l => .ok (l.any (fun v => match v with | .str s => s == k | _ => false))
  | .str s => .ok (isSub k.data s.data)
  | _ => .error "TypeError: argument of type is not iterable"

/-- The generator `all('tool' in step and 'args' in step for step in l)`
of `LLMPlanValidator.validate`: short-circuits on the first failing
step; a `TypeError` raised by a membership test on a non-container step
propagates. -/
def checkSteps : List Value → Except String Bool
  | [] => .ok true
  | s :: rest =>
    match pyContains "tool" s with
    | .error e => .error e
    | .ok t =>
      if !t then .ok false
      else
        match pyContains "args" s with
        | .error e => .error e
        | .ok a => if !a then .ok false else checkSteps rest

/-- `LLMPlanValidator.validate` (src/core/validator.py).  `chat` is the
model client; the second component counts the model calls issued.  The
fast path returns the directly extracted list when it is non-empty and
every step carries both a `tool` and an `args` key; otherwise a single
model call is issued and its output re-extracted. -/
def validate (chat : List (String × String) → String) (raw_plan : String) :
    Except String (List Value) × Nat :=
  let params_fast := _extract_json raw_plan
  if !params_fast.isEmpty then
    match checkSteps params_fast with
    | .error e => (.error e, 0)
    | .ok true => (.ok params_fast, 0)
    | .ok false =>
      (.ok (_extract_json (chat [("system", VALIDATOR_PROMPT), ("user", raw_plan)])), 1)
  else
    (.ok (_extract_json (chat [("system", VALIDATOR_PROMPT), ("user", raw_plan)])), 1)

/-- A registered tool: a named handler taking the processed keyword
arguments and returning a result or raising (modelled as `Except`).
The sync/async distinction of the Python handlers is invisible to the
pure model. -/
structure Tool where
  name : String
  run : List (String × Value) → Except String Value

/-- `ToolExecutor._find_tool` (src/backend/core/executor.py): `None`
for a falsy or non-string name, otherwise the first registered handler
with that name. -/
def _find_tool (tools : List Tool) (tool_name : Value) :
    Option (List (String × Value) → Except String Value) :=
  match tool_name with
  | .str s => if s = "" then none else (tools.find? (fun t => t.name == s)).map Tool.run
  | _ => none

/-- The guard `tool_name == "step"` of the executor loop. -/
def isStepSentinel : Value → Bool
  | .str s => s == "step"
  | _ => false

/-- Substitution of the sentinel inside one argument value: a string
argument containing `PREVIOUS_RESULT` has every occurrence replaced by
the stringified carry; every other value passes through unchanged. -/
def substArg (last : Value) (v : Value) : Value :=
  match v with
  | .str s =>
    if strContains "PREVIOUS_RESULT" s then .str (pyReplace s "PREVIOUS_RESULT" (pyStr last))
    else .str s
  | v => v

/-- The `processed_args` construction of the executor loop: sentinel
substitution over a dict of arguments, an empty dict for non-dict
`args`. -/
def processArgs (args : Value) (last : Value) : List (String × Value) :=
  match args with
  | .obj fields => fields.map (fun kv => (kv.1, substArg last kv.2))
  | _ => []

/-- One iteration of the `ToolExecutor.execute` loop: `none` when the
step is skipped (not a dict, falsy tool name, or the `"step"`
sentinel), otherwise the appended `StepResult` string together with the
new carry value (the raw result on success, the error text on a
missing tool or a raising handler). -/
def runStep (tools : List Tool) (last : Value) (step : Value) : Option (String × Value) :=
  match step with
  | .obj fields =>
    let tool_name := (pyGet fields "tool").getD .null
    let args := (pyGet fields "args").getD (.obj [])
    if !truthy tool_name || isStepSentinel tool_name then none
    else
      let processed := processArgs args last
      match _find_tool tools tool_name with
      | none =>
        let e := "Error: Tool \x27" ++ pyStr tool_name ++ "\x27 not found."
        some (e, .str e)
      | some run =>
        match run processed with
        | .ok result => some (pyStr result, result)
        | .error msg =>
          let e := "Error executing " ++ pyStr tool_name ++ ": " ++ msg
          some (e, .str e)
  | _ => none

/-- The sequential loop of `ToolExecutor.execute` over the remaining
steps, threading the carry value `last`. -/
def execGo (tools : List Tool) : List Value → Value → List String
  | [], _ => []
  | step :: rest, last =>
    match runStep tools last step with
    | none => execGo tools rest last
    | some (out, last') => out :: execGo tools rest last'

/-- `ToolExecutor.execute` (src/backend/core/executor.py): reject a
non-list plan with the fixed error result, otherwise run the steps
sequentially starting from the empty-string carry. -/
def execute (tools : List Tool) (plan : Value) : List String :=
  match plan with
  | .arr steps => execGo tools steps (.str "")
  | _ => ["Error: Invalid plan format. Expected a list of steps."]

/-- The carry value after processing a list of steps: skipped steps
leave it unchanged, executed steps overwrite it with their result (or
error text). -/
def carryAfter (tools : List Tool) (init : Value) (steps : List Value) : Value :=
  steps.foldl
    (fun last step =>
      match runStep tools last step with
      | none => last
      | some (_, last') => last')
    init

/-- The fixed no-results fallback of `LLMSummarizer.summarize`
(src/backend/core/summarizer.py). -/
def noResultsMsg : String :=
  "No se pudieron obtener resultados. Por favor intenta de nuevo."

/-- The system message of `LLMSummarizer.summarize`
(src/backend/core/summarizer.py). -/
def summarizerSystemMsg : String :=
  "You are a helpful assistant. You have been given REAL DATA that was already " ++
  "fetched from the internet by automated tools. This data is REAL and CURRENT. " ++
  "Your job is to summarize it clearly for the user. " ++
  "FORBIDDEN PHRASES (never use these): " ++
  "\x27I cannot access real-time data\x27, " ++
  "\x27I cannot browse the internet\x27, " ++
  "\x27As an AI language model\x27, " ++
  "\x27I don\x27t have access to\x27. " ++
  "The data is ALREADY PROVIDED TO YOU. Use it."

/-- Python `str(n)` for a natural number. -/
def natStr (n : Nat) : String := ⟨natStrChars n⟩

/-- Python `r[:2000]`. -/
def truncate2000 (r : String) : String := ⟨r.data.take 2000⟩

/-- The `results_text` join of `LLMSummarizer.summarize`: numbered,
truncated results separated by newlines. -/
def resultsTextAux (i : Nat) : List String → String
  | [] => ""
  | [r] => "--- Result " ++ natStr (i + 1) ++ " ---\n" ++ truncate2000 r
  | r :: rest =>
    "--- Result " ++ natStr (i + 1) ++ " ---\n" ++ truncate2000 r ++ "\n" ++
      resultsTextAux (i + 1) rest

/-- The user prompt of `LLMSummarizer.summarize`. -/
def summaryPrompt (task results_text : String) : String :=
  "USER QUESTION: " ++ task ++
  "\n\nTOOL RESULTS (this data is REAL, already fetched from the internet/APIs):\n" ++
  results_text ++
  "\n\nUsing ONLY the data above, write a clear and helpful answer for the user.\n" ++
  "Do NOT add disclaimers about not being able to access real-time data.\n" ++
  "The data above IS real-time data, already fetched by tools on your behalf."

/-- `LLMSummarizer.summarize` (src/backend/core/summarizer.py).  `chat`
is the model client; the second component counts the model calls
issued.  Results starting with `"Error executing"` are filtered out; if
nothing remains the fixed fallback is returned without a model call,
otherwise one call is issued on the constructed prompt. -/
def summarize (chat : List (String × String) → String) (task : String)
    (results : List String) : String × Nat :=
  let valid_results := results.filter (fun r => !strStarts "Error executing" r)
  if valid_results.isEmpty then (noResultsMsg, 0)
  else
    let results_text := resultsTextAux 0 valid_results
    (chat [("system", summarizerSystemMsg), ("user", summaryPrompt task results_text)], 1)

/-- The rate-limit test of `LLMClient._chat_gemini`
(src/backend/utils/llm_client.py): `"429" in error_msg or "quota" in
error_msg.lower()`. -/
def isRateLimit (msg : String) : Bool :=
  strContains "429" msg || strContains "quota" (strLower msg)

/-- The retry loop of `LLMClient._chat_gemini`.  `backend` gives the
outcome of the remote call at each attempt index; the result is paired
with the list of backoff waits (in seconds) performed, in order.  A
rate-limited attempt waits `45 * (attempt + 1)` seconds and retries; a
non-rate-limit error propagates immediately; an exhausted loop raises
the terminal failure. -/
def geminiLoop (backend : Nat → Except String String) (attempt : Nat) :
    Nat → Except String String × List Nat
  | 0 => (.error "Gemini API failed after retries", [])
  | r + 1 =>
    match backend attempt with
    | .ok t => (.ok t, [])
    | .error e =>
      if isRateLimit e then
        let w := 45 * (attempt + 1)
        let (res, ws) := geminiLoop backend (attempt + 1) r
        (res, w :: ws)
      else (.error e, [])

/-- The message-to-prompt flattening of `LLMClient._chat_gemini`:
system messages are wrapped in a `[System Instructions]` header, and
the parts are joined by newlines. -/
def promptParts : List (String × String) → List String
  | [] => []
  | (role, content) :: rest =>
    (if role == "system" then "[System Instructions]\n" ++ content ++ "\n" else content) ::
      promptParts rest

/-- Newline join of prompt parts. -/
def joinNl : List String → String
  | [] => ""
  | [s] => s
  | s :: rest => s ++ "\n" ++ joinNl rest

/-- `LLMClient._chat_gemini` (src/backend/utils/llm_client.py) with the
default `retries = 3`: flatten the messages into a single prompt and
run the bounded retry loop against the remote backend. -/
def _chat_gemini (backend : Nat → String → Except String String)
    (messages : List (String × String)) : Except String String × List Nat :=
  geminiLoop (fun a => backend a (joinNl (promptParts messages))) 0 3

/-- The response dictionary returned by
`AgentOrchestrator.execute_query`: always carries `type`, a `content`
value and an optional `mode`. -/
structure Resp where
  rtype : String
  content : Value
  mode : Option String

/-- The collaborators of `AgentOrchestrator`, each modelled as a
function that may raise (`Except`): the model client `chat`, its `mode`
attribute, `planner.plan`, `executor.execute`, `summarizer.summarize`
and `get_tools_desc_func`. -/
structure Components where
  chat : List (String × String) → Except String String
  mode : String
  plan : String → String → Except String String
  execute : Value → Except String (List String)
  summarize : String → List String → Except String String
  getToolsDesc : Except String String

/-- The fixed ticker-resolution prompt prefix of
`AgentOrchestrator.execute_query`. -/
def tickerPromptText : String :=
  "Rewrite this query by replacing any company name with its exact stock ticker " ++
  "(e.g. Apple -> AAPL, Microsoft -> MSFT). If there are no company names, output " ++
  "the original query exactly as is. ONLY OUTPUT THE REWRITTEN QUERY:"

/-- The complete ticker-resolution prompt for a query. -/
def tickerPrompt (cmd : String) : String := tickerPromptText ++ "\n" ++ cmd

/-- The markdown-fence cleanup applied to the raw plan:
`plan_str.replace("```json", "").replace("```", "").strip()`. -/
def cleanPlan (raw : String) : String :=
  pyStrip (pyReplace (pyReplace raw "```json" "") "```" "")

/-- The test `plan[0].get("tool") is None`: true when the key is absent
or bound to JSON null. -/
def getToolIsNone (fields : List (String × Value)) : Bool :=
  match pyGet fields "tool" with
  | none => true
  | some .null => true
  | some _ => false

/-- The body of the `try` block of `AgentOrchestrator.execute_query`:
pre-process, plan, JSON-decode (a decode failure returns the raw text
as the answer), short-circuit on a missing first tool, otherwise
execute and summarize; a non-list or empty plan falls through to a
direct model call.  Exceptions from any collaborator propagate as
`Except.error`. -/
def execute_query_inner (c : Components) (cmd : String) : Except String Resp :=
  match c.chat [("user", tickerPrompt cmd)] with
  | .error e => .error e
  | .ok resolved =>
    match c.getToolsDesc with
    | .error e => .error e
    | .ok tools_desc =>
      match c.plan (pyStrip resolved) tools_desc with
      | .error e => .error e
      | .ok plan_str_raw =>
        match jsonLoads (cleanPlan plan_str_raw) with
        | none => .ok ⟨"text", .str (cleanPlan plan_str_raw), some c.mode⟩
        | some plan =>
          match plan with
          | .arr (first :: rest) =>
            match first with
            | .obj fields =>
              if getToolIsNone fields then
                .ok ⟨"text", (pyGet fields "response").getD (.str "No response generated."),
                  none⟩
              else
                match c.execute (.arr (.obj fields :: rest)) with
                | .error e => .error e
                | .ok results =>
                  match c.summarize cmd results with
                  | .error e => .error e
                  | .ok final_report => .ok ⟨"text", .str final_report, some c.mode⟩
            | _ => .error "AttributeError: object has no attribute get"
          | _ =>
            match c.chat [("user", cmd)] with
            | .error e => .error e
            | .ok result => .ok ⟨"text", .str result, some c.mode⟩

/-- `AgentOrchestrator.execute_query`
(src/backend/core/agent_orchestrator.py): the `try` body with the
catch-all boundary that converts any exception into the
`**Agent Execution Error:**` response. -/
def execute_query (c : Components) (cmd : String) : Resp :=
  match execute_query_inner c cmd with
  | .ok r => r
  | .error e => ⟨"text", .str ("**Agent Execution Error:** " ++ e), none⟩

/-- A tool that returns its `msg` argument verbatim (the `echo` tool of
the substitution-correctness scenario). -/
def echoTool : Tool :=
  ⟨"echo", fun args =>
    match args with
    | [("msg", v)] => .ok v
    | _ => .error "echo() got unexpected arguments"⟩

/-- Structural validity of a plan step as tested by the executor loop:
a dict whose `tool` entry is truthy and is not the `"step"` sentinel. -/
def validStep : Value → Bool
  | .obj fields =>
    let t := (pyGet fields "tool").getD .null
    truthy t && !isStepSentinel t
  | _ => false

theorem runStep_isSome (tools : List Tool) (last step : Value) :
    (runStep tools last step).isSome = validStep step := by
  cases step <;> simp only [runStep, validStep, Option.isSome]
  rename_i fields
  by_cases h : (!truthy ((pyGet fields "tool").getD .null) ||
      isStepSentinel ((pyGet fields "tool").getD .null)) = true
  · rw [if_pos h]
    simp only [Bool.or_eq_true, Bool.not_eq_true'] at h
    rcases h with h | h
    · simp [h]
    · simp [h]
  · rw [if_neg h]
    simp only [Bool.or_eq_true, Bool.not_eq_true', not_or] at h
    obtain ⟨h1, h2⟩ := h
    rw [Bool.not_eq_false] at h1
    rw [Bool.not_eq_true] at h2
    rw [h1, h2]
    simp only [Bool.not_false, Bool.and_self]
    cases hf : _find_tool tools ((pyGet fields "tool").getD .null) with
    | none => rfl
    | some run =>
      cases hr : run (processArgs ((pyGet fields "args").getD (.obj [])) last) <;> simp [hr]

theorem execGo_length (tools : List Tool) (steps : List Value) (last : Value) :
    (execGo tools steps last).length = steps.countP (fun s => validStep s) := by
  induction steps generalizing last with
  | nil => simp [execGo]
  | cons s rest ih =>
    simp only [execGo, List.countP_cons]
    cases h : runStep tools last s with
    | none =>
      have hv : validStep s = false := by
        rw [← runStep_isSome tools last s, h]; rfl
      simp [ih, hv]
    | some p =>
      have hv : validStep s = true := by
        rw [← runStep_isSome tools last s, h]; rfl
      simp [ih, hv]

/-- Claim C3: for every plan that is a list, `execute` returns one
`StepResult` per structurally valid step (a dict whose tool name is
present, truthy and not the `"step"` sentinel); invalid steps are
skipped silently.  `execute` is a total function, so no per-step
failure can raise: missing tools and raising handlers are folded into
result strings by `runStep`. -/
theorem c3_execute_length (tools : List Tool) (steps : List Value) :
    (execute tools (.arr steps)).length = steps.countP (fun s => validStep s) :=
  execGo_length tools steps (.str "")

/-- The two-step echo plan of the substitution-correctness scenario:
`[{tool:"echo", args:{msg:"X"}}, {tool:"echo", args:{msg:"PREVIOUS_RESULT-Y"}}]`. -/
def c4plan : Value := .arr [
  .obj [("tool", .str "echo"), ("args", .obj [("msg", .str "X")])],
  .obj [("tool", .str "echo"), ("args", .obj [("msg", .str "PREVIOUS_RESULT-Y")])]]

/-- Claim C4: the literal sentinel `PREVIOUS_RESULT` inside a string
argument is replaced wholesale with the stringified prior result: the
echo/echo plan yields `"X"` then `"X-Y"`. -/
theorem c4_sentinel_substitution : execute [echoTool] c4plan = ["X", "X-Y"] := rfl

/-- An echo plan whose middle element is not a dict: the executor skips
it without producing a `StepResult` and without touching the carry. -/
def c5plan : Value := .arr [
  .obj [("tool", .str "echo"), ("args", .obj [("msg", .str "A")])],
  .str "junk",
  .obj [("tool", .str "echo"), ("args", .obj [("msg", .str "PREVIOUS_RESULT")])]]

/-- Claim C5 counterexample: in `c5plan` the third step's substituted
value is `"A"`, the result of the FIRST step — two positions earlier in
the plan — while the immediately preceding plan element (`"junk"`) is
skipped and produces no result at all (only two `StepResult`s for three
plan elements).  So the substituted value is not "the result of the
immediately preceding step of the plan": it can be the result of an
arbitrary earlier step when invalid steps intervene. -/
theorem c5_counterexample :
    execute [echoTool] c5plan = ["A", "A"] ∧
    runStep [echoTool] (.str "A") (.str "junk") = none ∧
    (execute [echoTool] c5plan).length = 2 :=
  ⟨rfl, rfl, rfl⟩

theorem execGo_append (tools : List Tool) (pre post : List Value) (c : Value) :
    execGo tools (pre ++ post) c =
      execGo tools pre c ++ execGo tools post (carryAfter tools c pre) := by
  induction pre generalizing c with
  | nil => simp [execGo, carryAfter]
  | cons s rest ih =>
    simp only [List.cons_append, execGo, carryAfter, List.foldl_cons]
    cases h : runStep tools c s with
    | none => simpa [h, carryAfter] using ih _
    | some p => simpa [h, carryAfter] using ih _

theorem carryAfter_invalid (tools : List Tool) (pre : List Value) (c : Value)
    (h : ∀ s ∈ pre, validStep s = false) : carryAfter tools c pre = c := by
  induction pre generalizing c with
  | nil => rfl
  | cons s rest ih =>
    have hs : validStep s = false := h s (by simp)
    have hnone : runStep tools c s = none := by
      have := runStep_isSome tools c s
      rw [hs] at this
      exact Option.not_isSome_iff_eq_none.mp (by simp [this])
    simp only [carryAfter, List.foldl_cons, hnone]
    exact ih _ (fun s hs' => h s (List.mem_cons_of_mem _ hs'))

/-- Claim C5 amended: the value available for sentinel substitution at
any step is the carry threaded through `carryAfter`: the result of the
most recently EXECUTED step before it (error markers from missing
tools and raising handlers included, since `runStep` returns them as
the new carry), with skipped steps leaving the carry untouched, and the
empty string when no step has executed yet (the initial carry of
`execute`).  Part one: execution of any prefix/suffix split threads
exactly `carryAfter` of the prefix into the suffix.  Part two: a prefix
of only invalid steps leaves the carry unchanged. -/
theorem c5_amended (tools : List Tool) (pre post : List Value) (c : Value) :
    execGo tools (pre ++ post) c =
      execGo tools pre c ++ execGo tools post (carryAfter tools c pre) ∧
    ((∀ s ∈ pre, validStep s = false) → carryAfter tools c pre = c) :=
  ⟨execGo_append tools pre post c, carryAfter_invalid tools pre c⟩

/-- Witness for the amended claim C5 at a concrete split: an invalid
one-element prefix, a concrete carry, and an echo step as suffix. -/
theorem c5_amended_witness :
    execGo [echoTool] ([Value.str "junk"] ++
        [Value.obj [("tool", .str "echo"), ("args", .obj [("msg", .str "w")])]]) (.str "w0") =
      execGo [echoTool] [Value.str "junk"] (.str "w0") ++
        execGo [echoTool]
          [Value.obj [("tool", .str "echo"), ("args", .obj [("msg", .str "w")])]]
          (carryAfter [echoTool] (.str "w0") [Value.str "junk"]) ∧
    carryAfter [echoTool] (.str "w0") [Value.str "junk"] = .str "w0" :=
  have h := c5_amended [echoTool] [Value.str "junk"]
    [Value.obj [("tool", .str "echo"), ("args", .obj [("msg", .str "w")])]] (.str "w0")
  ⟨h.1, h.2 (by intro s hs; rcases List.mem_singleton.mp hs with rfl; rfl)⟩

/-- Claim C6: a step naming an unregistered (non-empty, non-sentinel)
tool yields exactly the single "not found" `StepResult` naming the
tool; `execute` returns normally. -/
theorem c6_unknown_tool (tools : List Tool) (name : String) (args : Value)
    (h1 : ∀ t ∈ tools, t.name ≠ name) (h2 : name ≠ "") (h3 : name ≠ "step") :
    execute tools (.arr [.obj [("tool", .str name), ("args", args)]]) =
      ["Error: Tool \x27" ++ name ++ "\x27 not found."] := by
  have hget : pyGet [("tool", Value.str name), ("args", args)] "tool" = some (.str name) := by
    simp [pyGet]
  have hfind : _find_tool tools (.str name) = none := by
    simp only [_find_tool, if_neg h2]
    rw [List.find?_eq_none.mpr]
    · rfl
    · intro t ht
      simp [h1 t ht]
  have htr : truthy (Value.str name) = true := by simp [truthy, h2]
  have hst : isStepSentinel (Value.str name) = false := by
    simp only [isStepSentinel, beq_eq_false_iff_ne, ne_eq]
    exact h3
  simp only [execute, execGo, runStep, hget, Option.getD_some, htr, hst, Bool.not_true,
    Bool.false_or, if_false, hfind, pyStr]
  rfl

/-- Witness for claim C6: the name `bogus` against a registry holding
only `echo`. -/
theorem c6_unknown_tool_witness :
    execute [echoTool] (.arr [.obj [("tool", .str "bogus"), ("args", .obj [])]]) =
      ["Error: Tool \x27bogus\x27 not found."] :=
  c6_unknown_tool [echoTool] "bogus" (.obj [])
    (by intro t ht; rcases List.mem_singleton.mp ht with rfl; decide)
    (by decide) (by decide)

/-- Claim C10: a non-list plan makes `execute` return exactly the fixed
single-element error list; the result does not depend on the registry,
so no tool is invoked, and `execute` is total, so nothing is raised. -/
theorem c10_invalid_plan (tools : List Tool) (plan : Value)
    (h : ∀ steps, plan ≠ .arr steps) :
    execute tools plan = ["Error: Invalid plan format. Expected a list of steps."] := by
  cases plan <;> first | rfl | exact absurd rfl (h _)

/-- Witness for claim C10 at the concrete non-list plan `3`. -/
theorem c10_invalid_plan_witness :
    execute [echoTool] (.num 3) = ["Error: Invalid plan format. Expected a list of steps."] :=
  c10_invalid_plan [echoTool] (.num 3) (fun steps h => by cases h)

/-- Claim C2 counterexample: a result list consisting solely of a
"tool not found" error marker is NOT filtered out (the filter only
recognizes the `"Error executing"` prefix), so `summarize` does not
return the fixed fallback and issues one model call (returning the stub
client's output, with call count 1). -/
theorem c2_counterexample :
    summarize (fun _ => "LLM") "t" ["Error: Tool \x27x\x27 not found."] = ("LLM", 1) ∧
    "LLM" ≠ noResultsMsg :=
  ⟨rfl, by decide⟩

theorem summarize_filter_invariant (chat : List (String × String) → String)
    (task : String) (results : List String) :
    summarize chat task results =
      summarize chat task (results.filter (fun r => !strStarts "Error executing" r)) := by
  have hff : (results.filter (fun r => !strStarts "Error executing" r)).filter
      (fun r => !strStarts "Error executing" r) =
      results.filter (fun r => !strStarts "Error executing" r) := by
    induction results with
    | nil => rfl
    | cons a l ih =>
      by_cases ha : (!strStarts "Error executing" a) = true
      · simp [List.filter_cons, ha, ih]
      · simp only [Bool.not_eq_true] at ha
        simp [List.filter_cons, ha, ih]
  simp only [summarize, hff]

theorem summarize_all_errors (chat : List (String × String) → String)
    (task : String) (results : List String)
    (h : ∀ r ∈ results, strStarts "Error executing" r = true) :
    summarize chat task results = (noResultsMsg, 0) := by
  have hnil : results.filter (fun r => !strStarts "Error executing" r) = [] := by
    induction results with
    | nil => rfl
    | cons a l ih =>
      have ha := h a (by simp)
      simp only [List.filter_cons, ha, Bool.not_true, if_false]
      exact ih (fun r hr => h r (List.mem_cons_of_mem _ hr))
  simp [summarize, hnil]

/-- Claim C2 amended: `summarize` filters out exactly the `StepResult`s
that start with `"Error executing"` before building the prompt (only
the filtered list matters to the output), and when EVERY `StepResult`
starts with `"Error executing"` it returns the fixed no-results
fallback without issuing a model call.  "Tool not found" markers
(`Error: Tool '...' not found.`) are not failure markers for this
filter and are kept. -/
theorem c2_amended :
    (∀ chat task results, summarize chat task results =
      summarize chat task (results.filter (fun r => !strStarts "Error executing" r))) ∧
    (∀ chat task results, (∀ r ∈ results, strStarts "Error executing" r = true) →
      summarize chat task results = (noResultsMsg, 0)) :=
  ⟨summarize_filter_invariant, summarize_all_errors⟩

/-- Witness for the amended claim C2: a concrete all-errors list gives
the fallback with zero calls, and the filter invariance holds at a
concrete mixed list. -/
theorem c2_amended_witness :
    summarize (fun _ => "LLM") "t" ["Error executing a: boom"] = (noResultsMsg, 0) ∧
    summarize (fun _ => "LLM") "t" ["ok", "Error executing a: boom"] =
      summarize (fun _ => "LLM") "t"
        (["ok", "Error executing a: boom"].filter (fun r => !strStarts "Error executing" r)) :=
  ⟨c2_amended.2 (fun _ => "LLM") "t" ["Error executing a: boom"]
      (by intro r hr; rcases List.mem_singleton.mp hr with rfl; decide),
    c2_amended.1 (fun _ => "LLM") "t" ["ok", "Error executing a: boom"]⟩

/-- Claim C9 (code bug evidence): when every attempt is rate-limited
(a `429`/quota error), `_chat_gemini` performs exactly three attempts
and then raises the terminal failure; the backoff waits performed are
45, 90 and 135 seconds — the arithmetic progression `45 * (attempt+1)`,
not an exponentially increasing (geometric) sequence, although the
source comments the line as exponential backoff.  A non-rate-limit
error propagates immediately with no wait. -/
theorem c9_rate_limit_backoff :
    _chat_gemini (fun _ _ => .error "429 RESOURCE_EXHAUSTED: quota exceeded")
        [("user", "hi")] =
      (.error "Gemini API failed after retries", [45, 90, 135]) ∧
    _chat_gemini (fun _ _ => .error "invalid request") [("user", "hi")] =
      (.error "invalid request", []) ∧
    ¬ (135 = 45 * 2 ^ 2) :=
  ⟨rfl, rfl, by decide⟩

/-- Conformance of a component set to the documented wire shape of the
no-tool short circuit: whenever the planner's (cleaned, JSON-decoded)
output is a list whose first step is a dict, any `response` field it
carries holds a string. -/
def PlannerRespIsStr (c : Components) : Prop :=
  ∀ r t s, c.plan r t = .ok s →
    ∀ fields rest, jsonLoads (cleanPlan s) = some (.arr (.obj fields :: rest)) →
      ∀ v, pyGet fields "response" = some v → ∃ str, v = .str str

theorem inner_shape (c : Components) (cmd : String) (h : PlannerRespIsStr c) :
    ∀ r, execute_query_inner c cmd = .ok r → r.rtype = "text" ∧ ∃ s, r.content = .str s := by
  intro r hr
  unfold execute_query_inner at hr
  split at hr
  · cases hr
  rename_i resolved h1
  split at hr
  · cases hr
  rename_i td h2
  split at hr
  · cases hr
  rename_i raw h3
  split at hr
  case _ h4 =>
    cases hr
    exact ⟨rfl, _, rfl⟩
  rename_i plan h4
  split at hr
  case _ first rest =>
    split at hr
    case _ fields =>
      split at hr
      case isTrue h5 =>
        cases hr
        refine ⟨rfl, ?_⟩
        cases h6 : pyGet fields "response" with
        | none => exact ⟨"No response generated.", by simp [h6]⟩
        | some v =>
          obtain ⟨str, hstr⟩ := h _ _ _ h3 fields rest h4 v h6
          exact ⟨str, by simp [h6, hstr]⟩
      case isFalse h5 =>
        split at hr
        · cases hr
        rename_i results h8
        split at hr
        · cases hr
        rename_i rep h9
        cases hr
        exact ⟨rfl, _, rfl⟩
    case _ x hx =>
      cases hr
  case _ x hx =>
    split at hr
    · cases hr
    rename_i res h7
    cases hr
    exact ⟨rfl, _, rfl⟩

/-- Claim C1: `execute_query` is a total function returning a response
of the documented shape — `type` is always `"text"`, `content` is a
string (given wire-shape conformance of the planner's `response` field,
which in Python is untyped), `mode` is optional — and any exception
raised anywhere in the pre-process/plan/execute/summarize sequence
(an `Except.error` of the inner pipeline) is converted at the boundary
into the user-visible `**Agent Execution Error:**` string in the
returned content. -/
theorem c1_execute_query_shape (c : Components) (cmd : String) (h : PlannerRespIsStr c) :
    (execute_query c cmd).rtype = "text" ∧
    (∃ s, (execute_query c cmd).content = .str s) ∧
    (∀ e, execute_query_inner c cmd = .error e →
      (execute_query c cmd).content = .str ("**Agent Execution Error:** " ++ e)) := by
  unfold execute_query
  cases hi : execute_query_inner c cmd with
  | ok r =>
    obtain ⟨ht, hs⟩ := inner_shape c cmd h r hi
    exact ⟨ht, hs, fun e he => by cases he⟩
  | error e =>
    exact ⟨rfl, ⟨_, rfl⟩, fun e' he' => by cases he'; rfl⟩

/-- A concrete component assembly: the planner answers with plain text
that is not JSON, so the orchestrator returns it as the direct
answer. -/
def comps1 : Components :=
  ⟨fun _ => .ok "resolved", "local", fun _ _ => .ok "not json",
    fun _ => .ok [], fun _ _ => .ok "sum", .ok "tools"⟩

/-- Witness for claim C1 at the concrete components `comps1`. -/
theorem c1_execute_query_shape_witness :
    (execute_query comps1 "q").rtype = "text" ∧
    (∃ s, (execute_query comps1 "q").content = .str s) :=
  have hconf : PlannerRespIsStr comps1 := by
    intro r t s hs fields rest hj v hv
    cases hs
    have : jsonLoads (cleanPlan "not json") = none := rfl
    rw [this] at hj
    cases hj
  have h := c1_execute_query_shape comps1 "q" hconf
  ⟨h.1, h.2.1⟩

/-- Claim C8: when the planner's raw plan decodes to a list whose first
step is a dict with an absent-or-null `tool` field, `execute_query`
returns that step's `response` field as the final content and
terminates immediately.  The executor and summarizer components are
universally quantified (inside `c`) and the conclusion does not depend
on them, so neither is invoked. -/
theorem c8_no_tool_short_circuit (c : Components) (cmd rr td raw resp : String)
    (fields : List (String × Value)) (rest : List Value)
    (h1 : c.chat [("user", tickerPrompt cmd)] = .ok rr)
    (h2 : c.getToolsDesc = .ok td)
    (h3 : c.plan (pyStrip rr) td = .ok raw)
    (h4 : jsonLoads (cleanPlan raw) = some (.arr (.obj fields :: rest)))
    (h5 : getToolIsNone fields = true)
    (h6 : pyGet fields "response" = some (.str resp)) :
    execute_query c cmd = ⟨"text", .str resp, none⟩ := by
  unfold execute_query execute_query_inner
  simp only [h1, h2, h3, h4, h5, if_true, h6, Option.getD_some]

/-- Components for the claim C8 witness: the planner emits the no-tool
plan `[{"step":1,"tool":null,"response":"42"}]` while the executor and
summarizer components raise if ever invoked. -/
def comps2 : Components :=
  ⟨fun _ => .ok "resolved", "local",
    fun _ _ => .ok "[\x7b\"step\":1,\"tool\":null,\"response\":\"42\"\x7d]",
    fun _ => .error "EXECUTOR INVOKED", fun _ _ => .error "SUMMARIZER INVOKED", .ok "tools"⟩

/-- Witness for claim C8: the concrete raw plan
`[{"step":1,"tool":null,"response":"42"}]` yields content `"42"` even
though the executor and summarizer components of `comps2` raise when
called. -/
theorem c8_no_tool_short_circuit_witness :
    execute_query comps2 "q" = ⟨"text", .str "42", none⟩ :=
  c8_no_tool_short_circuit comps2 "q" "resolved" "tools"
    "[\x7b\"step\":1,\"tool\":null,\"response\":\"42\"\x7d]" "42"
    [("step", .num 1), ("tool", .null), ("response", .str "42")] []
    rfl rfl rfl rfl rfl rfl

/-- Whether the head of the remaining input is a digit (the only token
whose parse is greedy into what follows). -/
def headNotDigit : List Char → Bool
  | [] => true
  | c :: _ => !isDigitCh c

theorem digit_facts : ∀ d < 10, isDigitCh (digitChar d) = true ∧ digitVal (digitChar d) = d := by
  decide

theorem natStrAux_fuel (f : Nat) : ∀ g n : Nat, ∀ acc : List Char,
    n < 10 ^ (f + 1) → n < 10 ^ (g + 1) → natStrAux f n acc = natStrAux g n acc := by
  induction f with
  | zero =>
    intro g n acc hf hg
    have h10 : n < 10 := by simpa using hf
    cases g with
    | zero => rfl
    | succ g' => simp [natStrAux, h10, Nat.mod_eq_of_lt h10]
  | succ f' ih =>
    intro g n acc hf hg
    by_cases h10 : n < 10
    · cases g with
      | zero => simp [natStrAux, h10, Nat.mod_eq_of_lt h10]
      | succ g' => simp [natStrAux, h10]
    · cases g with
      | zero =>
        exfalso
        have : n < 10 := by simpa using hg
        omega
      | succ g' =>
        simp only [natStrAux, if_neg h10]
        have hf' : n / 10 < 10 ^ (f' + 1) := by
          rw [Nat.div_lt_iff_lt_mul (by norm_num)]
          calc n < 10 ^ (f' + 1 + 1) := hf
          _ = 10 ^ (f' + 1) * 10 := by ring
        have hg' : n / 10 < 10 ^ (g' + 1) := by
          rw [Nat.div_lt_iff_lt_mul (by norm_num)]
          calc n < 10 ^ (g' + 1 + 1) := hg
          _ = 10 ^ (g' + 1) * 10 := by ring
        exact ih g' (n / 10) _ hf' hg'

theorem natStrAux_shift (f : Nat) : ∀ n : Nat, ∀ acc : List Char,
    natStrAux f n acc = natStrAux f n [] ++ acc := by
  induction f with
  | zero => intro n acc; rfl
  | succ f' ih =>
    intro n acc
    by_cases h10 : n < 10
    · simp [natStrAux, h10]
    · simp only [natStrAux, if_neg h10]
      rw [ih, ih (n / 10) [digitChar (n % 10)]]
      simp

theorem natStrAux_ne_nil_digit (f : Nat) : ∀ n : Nat, ∀ acc : List Char,
    ∃ c t, natStrAux f n acc = c :: t ∧ isDigitCh c = true := by
  induction f with
  | zero =>
    intro n acc
    exact ⟨_, _, rfl, (digit_facts (n % 10) (Nat.mod_lt _ (by norm_num))).1⟩
  | succ f' ih =>
    intro n acc
    by_cases h10 : n < 10
    · exact ⟨digitChar n, acc, by simp [natStrAux, h10], (digit_facts n h10).1⟩
    · simp only [natStrAux, if_neg h10]
      exact ih (n / 10) _

theorem parseDigitsAux_append (f : Nat) : ∀ n acc : Nat, ∀ rest : List Char,
    n < 10 ^ (f + 1) →
    parseDigitsAux acc (natStrAux f n [] ++ rest) =
      parseDigitsAux (acc * 10 ^ (natStrAux f n []).length + n) rest := by
  induction f with
  | zero =>
    intro n acc rest hf
    have h10 : n < 10 := by simpa using hf
    have hd := digit_facts n h10
    simp only [natStrAux, Nat.mod_eq_of_lt h10, List.cons_append, List.nil_append,
      parseDigitsAux, hd.1, if_true, hd.2, List.length_cons, List.length_nil,
      pow_one]
    norm_num
  | succ f' ih =>
    intro n acc rest hf
    by_cases h10 : n < 10
    · have hd := digit_facts n h10
      simp only [natStrAux, if_pos h10, List.cons_append, List.nil_append,
        parseDigitsAux, hd.1, if_true, hd.2, List.length_cons, List.length_nil,
        pow_one]
      norm_num
    · simp only [natStrAux, if_neg h10]
      rw [natStrAux_shift]
      have hf' : n / 10 < 10 ^ (f' + 1) := by
        rw [Nat.div_lt_iff_lt_mul (by norm_num)]
        calc n < 10 ^ (f' + 1 + 1) := hf
        _ = 10 ^ (f' + 1) * 10 := by ring
      rw [List.append_assoc]
      rw [ih (n / 10) acc _ hf']
      have hd := digit_facts (n % 10) (Nat.mod_lt _ (by norm_num))
      simp only [List.cons_append, List.nil_append, parseDigitsAux, hd.1, if_true, hd.2,
        List.length_append, List.length_cons, List.length_nil]
      congr 1
      have hdm : 10 * (n / 10) + n % 10 = n := Nat.div_add_mod n 10
      set L := (natStrAux f' (n / 10) []).length with hL
      rw [pow_succ]
      ring_nf
      omega

theorem parseDigitsAux_stop (a : Nat) (rest : List Char) (h : headNotDigit rest = true) :
    parseDigitsAux a rest = (a, rest) := by
  cases rest with
  | nil => rfl
  | cons c t =>
    simp only [headNotDigit, Bool.not_eq_true'] at h
    simp [parseDigitsAux, h]

theorem natStrChars_parse (n : Nat) (rest : List Char) (h : headNotDigit rest = true) :
    parseDigitsAux 0 (natStrChars n ++ rest) = (n, rest) := by
  have hb : n < 10 ^ (n + 1) := by
    calc n < 10 ^ n := Nat.lt_pow_self (by norm_num) n
    _ ≤ 10 ^ (n + 1) := Nat.pow_le_pow_right (by norm_num) (by omega)
  rw [show natStrChars n = natStrAux n n [] from rfl]
  rw [parseDigitsAux_append n n 0 rest hb]
  simpa using parseDigitsAux_stop n rest h

theorem parseNum_print (n : Int) (rest : List Char) (h : headNotDigit rest = true) :
    parseNum (intStrChars n ++ rest) = some (.num n, rest) := by
  unfold intStrChars
  obtain ⟨c, t, hct, hdig⟩ := natStrAux_ne_nil_digit n.natAbs n.natAbs []
  have hre : c :: (t ++ rest) = natStrChars n.natAbs ++ rest := by
    rw [show natStrChars n.natAbs = natStrAux n.natAbs n.natAbs [] from rfl, hct]
    rfl
  have hkey : parseDigitsAux 0 (c :: (t ++ rest)) = (n.natAbs, rest) := by
    rw [hre, natStrChars_parse _ _ h]
  by_cases hn : n < 0
  · rw [if_pos hn]
    rw [show natStrChars n.natAbs = natStrAux n.natAbs n.natAbs [] from rfl, hct]
    simp only [List.cons_append, parseNum, if_pos rfl, hdig, if_true, hkey]
    have : -(n.natAbs : Int) = n := by omega
    rw [this]
  · rw [if_neg hn]
    rw [show natStrChars n.natAbs = natStrAux n.natAbs n.natAbs [] from rfl, hct]
    have hcm : c ≠ '-' := by
      intro hc
      rw [hc] at hdig
      exact absurd hdig (by decide)
    simp only [List.cons_append, parseNum, if_neg hcm, hdig, if_true, hkey]
    have : (n.natAbs : Int) = n := by omega
    rw [this]

theorem parseStrAux_esc (s : List Char) : ∀ rest : List Char,
    parseStrAux (escChars s ++ '"' :: rest) = some (s, rest) := by
  induction s with
  | nil =>
    intro rest
    rw [show escChars [] ++ '"' :: rest = '"' :: rest from rfl, parseStrAux.eq_2]
    rw [if_pos rfl]
  | cons c t ih =>
    intro rest
    simp only [escChars, escChar]
    by_cases h1 : c = '"'
    · subst h1
      rw [if_pos rfl]
      rw [show (['\\', '"'] ++ escChars t) ++ '"' :: rest =
        '\\' :: '"' :: (escChars t ++ '"' :: rest) from by simp, parseStrAux.eq_2]
      rw [if_neg (by decide), if_pos rfl]
      simp [parseStrEsc, unescChar, ih]
    · rw [if_neg h1]
      by_cases h2 : c = '\\'
      · subst h2
        rw [if_pos rfl]
        rw [show (['\\', '\\'] ++ escChars t) ++ '"' :: rest =
          '\\' :: '\\' :: (escChars t ++ '"' :: rest) from by simp, parseStrAux.eq_2]
        rw [if_neg (by decide), if_pos rfl]
        simp [parseStrEsc, unescChar, ih]
      · rw [if_neg h2]
        by_cases h3 : c = '\n'
        · subst h3
          rw [if_pos rfl]
          rw [show (['\\', 'n'] ++ escChars t) ++ '"' :: rest =
            '\\' :: 'n' :: (escChars t ++ '"' :: rest) from by simp, parseStrAux.eq_2]
          rw [if_neg (by decide), if_pos rfl]
          simp [parseStrEsc, unescChar, ih]
        · rw [if_neg h3]
          by_cases h4 : c = '\t'
          · subst h4
            rw [if_pos rfl]
            rw [show (['\\', 't'] ++ escChars t) ++ '"' :: rest =
              '\\' :: 't' :: (escChars t ++ '"' :: rest) from by simp, parseStrAux.eq_2]
            rw [if_neg (by decide), if_pos rfl]
            simp [parseStrEsc, unescChar, ih]
          · rw [if_neg h4]
            by_cases h5 : c = '\r'
            · subst h5
              rw [if_pos rfl]
              rw [show (['\\', 'r'] ++ escChars t) ++ '"' :: rest =
                '\\' :: 'r' :: (escChars t ++ '"' :: rest) from by simp, parseStrAux.eq_2]
              rw [if_neg (by decide), if_pos rfl]
              simp [parseStrEsc, unescChar, ih]
            · rw [if_neg h5]
              rw [show ([c] ++ escChars t) ++ '"' :: rest =
                c :: (escChars t ++ '"' :: rest) from by simp, parseStrAux.eq_2]
              rw [if_neg h1, if_neg h2]
              simp [ih]

mutual

/-- Fuel sufficient for `parseVal` to parse the serialization of a
value. -/
def needFuel : Value → Nat
  | .null => 1
  | .bool _ => 1
  | .num _ => 1
  | .str _ => 1
  | .arr l => 2 + needElemsNE l
  | .obj m => 2 + needMembersNE m

/-- Fuel sufficient for `parseElemsNE` on a serialized element list. -/
def needElemsNE : List Value → Nat
  | [] => 0
  | v :: tl => 1 + max (needFuel v) (needElemsNE tl)

/-- Fuel sufficient for `parseMembersNE` on a serialized member
list. -/
def needMembersNE : List (String × Value) → Nat
  | [] => 0
  | kv :: tl => 1 + max (needFuel kv.2) (needMembersNE tl)

end

theorem skipWs_cons_not (c : Char) (r : List Char) (h : isWs c = false) :
    skipWs (c :: r) = c :: r := by
  simp [skipWs, h]

theorem digit_head_facts (c : Char) (h : isDigitCh c = true) :
    isWs c = false ∧ c ≠ '[' ∧ c ≠ lbrace ∧ c ≠ '"' ∧ c ≠ 'n' ∧ c ≠ 't' ∧ c ≠ 'f' ∧
      c ≠ ']' := by
  refine ⟨?_, ?_, ?_, ?_, ?_, ?_, ?_, ?_⟩
  · by_contra hw
    rw [Bool.not_eq_false] at hw
    simp only [isWs, Bool.or_eq_true, decide_eq_true_eq] at hw
    rcases hw with ((rfl | rfl) | rfl) | rfl <;> revert h <;> decide
  all_goals (rintro rfl; revert h; decide)

theorem printJson_head (v : Value) :
    ∃ c t, printJson v = c :: t ∧ isWs c = false ∧ c ≠ ']' ∧ c ≠ rbrace := by
  cases v with
  | null => exact ⟨'n', _, by rw [printJson], by decide, by decide, by decide⟩
  | bool b =>
    cases b with
    | true => exact ⟨'t', _, by rw [printJson], by decide, by decide, by decide⟩
    | false => exact ⟨'f', _, by rw [printJson], by decide, by decide, by decide⟩
  | num n =>
    rw [printJson]
    unfold intStrChars
    by_cases hn : n < 0
    · rw [if_pos hn]
      exact ⟨'-', _, rfl, by decide, by decide, by decide⟩
    · rw [if_neg hn]
      obtain ⟨c, t, hct, hd⟩ := natStrAux_ne_nil_digit n.natAbs n.natAbs []
      have hf := digit_head_facts c hd
      refine ⟨c, t, ?_, hf.1, hf.2.2.2.2.2.2.2, ?_⟩
      · rw [show natStrChars n.natAbs = natStrAux n.natAbs n.natAbs [] from rfl, hct]
      · intro hc
        rw [hc] at hd
        exact absurd hd (by decide)
  | str s => exact ⟨'"', _, by rw [printJson], by decide, by decide, by decide⟩
  | arr l => exact ⟨'[', _, by rw [printJson], by decide, by decide, by decide⟩
  | obj m => exact ⟨lbrace, _, by rw [printJson], by decide, by decide, by decide⟩

theorem printJson_headNotDigit_cons (c : Char) (t rest : List Char)
    (hc : isDigitCh c = false) : headNotDigit (c :: t ++ rest) = true := by
  simp [headNotDigit, hc]

theorem parseVal_quote (g : Nat) (cs : List Char) :
    parseVal (g + 1) ('"' :: cs) =
      (match parseStrAux cs with
       | some (s, r) => some (.str ⟨s⟩, r)
       | none => none) := rfl

theorem parseVal_lbracket (g : Nat) (cs : List Char) :
    parseVal (g + 1) ('[' :: cs) =
      (match parseElems g cs with
       | some (l, r) => some (.arr l, r)
       | none => none) := rfl

theorem parseVal_lbrace (g : Nat) (cs : List Char) :
    parseVal (g + 1) (lbrace :: cs) =
      (match parseMembers g cs with
       | some (m, r) => some (.obj m, r)
       | none => none) := rfl

theorem parseVal_other (g : Nat) (c : Char) (cs : List Char) (hws : isWs c = false)
    (h1 : c ≠ '[') (h2 : c ≠ lbrace) (h3 : c ≠ '"') (h4 : c ≠ 'n') (h5 : c ≠ 't')
    (h6 : c ≠ 'f') :
    parseVal (g + 1) (c :: cs) = parseNum (c :: cs) := by
  rw [parseVal.eq_2, skipWs_cons_not c cs hws]
  simp only [if_neg h1, if_neg h2, if_neg h3, if_neg h4, if_neg h5, if_neg h6]

theorem parseElems_rbracket (g : Nat) (rest : List Char) :
    parseElems (g + 1) (']' :: rest) = some ([], rest) := rfl

theorem parseElems_other (g : Nat) (c : Char) (cs : List Char) (hws : isWs c = false)
    (h : c ≠ ']') :
    parseElems (g + 1) (c :: cs) = parseElemsNE g (c :: cs) := by
  rw [parseElems.eq_2, skipWs_cons_not c cs hws]
  simp only [if_neg h]

theorem parseMembers_rbrace (g : Nat) (rest : List Char) :
    parseMembers (g + 1) (rbrace :: rest) = some ([], rest) := rfl

theorem parseMembers_other (g : Nat) (c : Char) (cs : List Char) (hws : isWs c = false)
    (h : c ≠ rbrace) :
    parseMembers (g + 1) (c :: cs) = parseMembersNE g (c :: cs) := by
  rw [parseMembers.eq_2, skipWs_cons_not c cs hws]
  simp only [if_neg h]

theorem parseMembersNE_quote (g : Nat) (cs : List Char) :
    parseMembersNE (g + 1) ('"' :: cs) =
      (match parseStrAux cs with
       | none => none
       | some (kcs, r) =>
         match skipWs r with
         | ':' :: r2 =>
           match parseVal g r2 with
           | none => none
           | some (v, r3) =>
             match skipWs r3 with
             | [] => none
             | d :: r4 =>
               if d = ',' then
                 match parseMembersNE g r4 with
                 | some (m, rr) => some ((⟨kcs⟩, v) :: m, rr)
                 | none => none
               else if d = rbrace then some ([(⟨kcs⟩, v)], r4)
               else none
         | _ => none) := rfl

theorem parse_print_all : ∀ f : Nat,
    (∀ v : Value, ∀ rest : List Char, needFuel v ≤ f → headNotDigit rest = true →
      parseVal f (printJson v ++ rest) = some (v, rest)) ∧
    (∀ l : List Value, ∀ rest : List Char, 1 + needElemsNE l ≤ f →
      parseElems f (printElems l ++ ']' :: rest) = some (l, rest)) ∧
    (∀ l : List Value, ∀ rest : List Char, l ≠ [] → needElemsNE l ≤ f →
      parseElemsNE f (printElems l ++ ']' :: rest) = some (l, rest)) ∧
    (∀ m : List (String × Value), ∀ rest : List Char, 1 + needMembersNE m ≤ f →
      parseMembers f (printMembers m ++ rbrace :: rest) = some (m, rest)) ∧
    (∀ m : List (String × Value), ∀ rest : List Char, m ≠ [] → needMembersNE m ≤ f →
      parseMembersNE f (printMembers m ++ rbrace :: rest) = some (m, rest)) := by
  intro f
  induction f with
  | zero =>
    refine ⟨?_, ?_, ?_, ?_, ?_⟩
    · intro v rest hf _
      exfalso
      cases v <;> simp [needFuel] at hf
    · intro l rest hf
      exfalso
      omega
    · intro l rest hl hf
      exfalso
      cases l with
      | nil => exact hl rfl
      | cons v tl => simp [needElemsNE] at hf
    · intro m rest hf
      exfalso
      omega
    · intro m rest hm hf
      exfalso
      cases m with
      | nil => exact hm rfl
      | cons kv tl => simp [needMembersNE] at hf
  | succ g ih =>
    obtain ⟨ihV, ihE, ihEN, ihM, ihMN⟩ := ih
    refine ⟨?_, ?_, ?_, ?_, ?_⟩
    · -- parseVal
      intro v rest hf hr
      cases v with
      | null =>
        rw [show printJson .null ++ rest = 'n' :: 'u' :: 'l' :: 'l' :: rest from by
          rw [printJson]
          rfl]
        rfl
      | bool b =>
        cases b with
        | true =>
          rw [show printJson (.bool true) ++ rest = 't' :: 'r' :: 'u' :: 'e' :: rest from by
            rw [printJson]
            rfl]
          rfl
        | false =>
          rw [show printJson (.bool false) ++ rest =
            'f' :: 'a' :: 'l' :: 's' :: 'e' :: rest from by rw [printJson]; rfl]
          rfl
      | num n =>
        rw [show printJson (.num n) ++ rest = intStrChars n ++ rest from by rw [printJson]]
        by_cases hn : n < 0
        · rw [show intStrChars n ++ rest = '-' :: (natStrChars n.natAbs ++ rest) from by
            unfold intStrChars
            rw [if_pos hn]
            rfl]
          rw [parseVal_other g '-' _ (by decide) (by decide) (by decide) (by decide)
            (by decide) (by decide) (by decide)]
          rw [show '-' :: (natStrChars n.natAbs ++ rest) = intStrChars n ++ rest from by
            unfold intStrChars
            rw [if_pos hn]
            rfl]
          exact parseNum_print n rest hr
        · obtain ⟨c, t, hct, hd⟩ := natStrAux_ne_nil_digit n.natAbs n.natAbs []
          have hcs : intStrChars n = c :: t := by
            unfold intStrChars
            rw [if_neg hn]
            exact hct
          obtain ⟨w1, w2, w3, w4, w5, w6, w7, _⟩ := digit_head_facts c hd
          rw [hcs, List.cons_append]
          rw [parseVal_other g c _ w1 w2 w3 w4 w5 w6 w7]
          rw [show c :: (t ++ rest) = intStrChars n ++ rest from by rw [hcs]; rfl]
          exact parseNum_print n rest hr
      | str s =>
        rw [show printJson (.str s) ++ rest = '"' :: (escChars s.data ++ '"' :: rest) from by
          rw [printJson]
          simp]
        rw [parseVal_quote, parseStrAux_esc]
      | arr l =>
        rw [show printJson (.arr l) ++ rest = '[' :: (printElems l ++ ']' :: rest) from by
          rw [printJson]
          simp]
        rw [parseVal_lbracket, ihE l rest (by rw [needFuel] at hf; omega)]
      | obj m =>
        rw [show printJson (.obj m) ++ rest = lbrace :: (printMembers m ++ rbrace :: rest) from by
          rw [printJson]
          simp]
        rw [parseVal_lbrace, ihM m rest (by rw [needFuel] at hf; omega)]
    · -- parseElems
      intro l rest hf
      cases l with
      | nil =>
        rw [show printElems [] ++ ']' :: rest = ']' :: rest from by rw [printElems]; rfl]
        exact parseElems_rbracket g rest
      | cons v tl =>
        obtain ⟨c, t, hct, hws, hne, _⟩ := printJson_head v
        have hshape : ∃ t', printElems (v :: tl) = c :: t' := by
          cases tl with
          | nil => exact ⟨t, by rw [printElems]; exact hct⟩
          | cons w tl' =>
            refine ⟨t ++ ',' :: printElems (w :: tl'), ?_⟩
            rw [printElems, hct]
            · rfl
            · exact fun h => absurd h (List.cons_ne_nil _ _)
        obtain ⟨t', ht'⟩ := hshape
        rw [ht', List.cons_append, parseElems_other g c _ hws hne, ← List.cons_append, ← ht']
        exact ihEN (v :: tl) rest (List.cons_ne_nil _ _) (by omega)
    · -- parseElemsNE
      intro l rest hl hf
      cases l with
      | nil => exact absurd rfl hl
      | cons v tl =>
        have hfv : needFuel v ≤ g := by rw [needElemsNE] at hf; omega
        have hft : needElemsNE tl ≤ g := by rw [needElemsNE] at hf; omega
        rw [parseElemsNE.eq_2]
        cases tl with
        | nil =>
          rw [show printElems [v] ++ ']' :: rest = printJson v ++ ']' :: rest from by
            rw [printElems]]
          rw [ihV v (']' :: rest) hfv (by rfl)]
          rfl
        | cons w tl' =>
          rw [show printElems (v :: w :: tl') ++ ']' :: rest =
            printJson v ++ ',' :: (printElems (w :: tl') ++ ']' :: rest) from by
            rw [printElems]
            · simp
            · exact fun h => absurd h (List.cons_ne_nil _ _)]
          rw [ihV v _ hfv (by rfl)]
          simp only []
          rw [show skipWs (',' :: (printElems (w :: tl') ++ ']' :: rest)) =
            ',' :: (printElems (w :: tl') ++ ']' :: rest) from
            skipWs_cons_not _ _ (by decide)]
          simp only [if_pos rfl]
          rw [ihEN (w :: tl') rest (List.cons_ne_nil _ _) hft]
          rfl
    · -- parseMembers
      intro m rest hf
      cases m with
      | nil =>
        rw [show printMembers [] ++ rbrace :: rest = rbrace :: rest from by
          rw [printMembers]; rfl]
        exact parseMembers_rbrace g rest
      | cons kv tl =>
        obtain ⟨k, v⟩ := kv
        have hshape : ∃ t', printMembers ((k, v) :: tl) = '"' :: t' := by
          cases tl with
          | nil => exact ⟨_, by rw [printMembers]⟩
          | cons kw tl' =>
            refine ⟨escChars k.data ++ '"' :: ':' :: printJson v ++
              ',' :: printMembers (kw :: tl'), ?_⟩
            rw [printMembers]
            · rfl
            · exact fun h => absurd h (List.cons_ne_nil _ _)
        obtain ⟨t', ht'⟩ := hshape
        rw [ht', List.cons_append, parseMembers_other g '"' _ (by decide) (by decide),
          ← List.cons_append, ← ht']
        exact ihMN ((k, v) :: tl) rest (List.cons_ne_nil _ _) (by omega)
    · -- parseMembersNE
      intro m rest hm hf
      cases m with
      | nil => exact absurd rfl hm
      | cons kv tl =>
        obtain ⟨k, v⟩ := kv
        have hfv : needFuel v ≤ g := by simp only [needMembersNE] at hf; omega
        have hft : needMembersNE tl ≤ g := by simp only [needMembersNE] at hf; omega
        cases tl with
        | nil =>
          rw [show printMembers [(k, v)] ++ rbrace :: rest =
            '"' :: (escChars k.data ++ '"' :: ':' :: (printJson v ++ rbrace :: rest)) from by
            rw [printMembers]
            simp]
          rw [parseMembersNE_quote, parseStrAux_esc]
          have hv := ihV v (rbrace :: rest) hfv (by rfl)
          have hs1 : skipWs (':' :: (printJson v ++ rbrace :: rest)) =
            ':' :: (printJson v ++ rbrace :: rest) := skipWs_cons_not _ _ (by decide)
          have hs2 : skipWs (rbrace :: rest) = rbrace :: rest :=
            skipWs_cons_not _ _ (by decide)
          have hd1 : (rbrace = ',') = False := eq_false (by decide)
          simp only [hs1, hv, hs2, hd1, if_false, eq_self_iff_true, if_true]
        | cons kw tl' =>
          rw [show printMembers ((k, v) :: kw :: tl') ++ rbrace :: rest =
            '"' :: (escChars k.data ++ '"' :: ':' ::
              (printJson v ++ ',' :: (printMembers (kw :: tl') ++ rbrace :: rest))) from by
            rw [printMembers]
            · simp
            · exact fun h => absurd h (List.cons_ne_nil _ _)]
          rw [parseMembersNE_quote, parseStrAux_esc]
          have hv := ihV v (',' :: (printMembers (kw :: tl') ++ rbrace :: rest)) hfv (by rfl)
          have hs1 : skipWs (':' :: (printJson v ++ ',' ::
              (printMembers (kw :: tl') ++ rbrace :: rest))) =
            ':' :: (printJson v ++ ',' :: (printMembers (kw :: tl') ++ rbrace :: rest)) :=
            skipWs_cons_not _ _ (by decide)
          have hs2 : skipWs (',' :: (printMembers (kw :: tl') ++ rbrace :: rest)) =
            ',' :: (printMembers (kw :: tl') ++ rbrace :: rest) :=
            skipWs_cons_not _ _ (by decide)
          have hmn := ihMN (kw :: tl') rest (List.cons_ne_nil _ _) hft
          simp only [hs1, hv, hs2, eq_self_iff_true, if_true, hmn]

theorem printJson_length_pos (v : Value) : 1 ≤ (printJson v).length := by
  obtain ⟨c, t, hct, _⟩ := printJson_head v
  rw [hct]
  simp

mutual

theorem needFuel_le (v : Value) : needFuel v ≤ 3 * (printJson v).length := by
  cases v with
  | null => rw [needFuel, printJson]; norm_num
  | bool b => cases b <;> (rw [needFuel, printJson]; norm_num)
  | num n =>
    have := printJson_length_pos (.num n)
    rw [needFuel]
    omega
  | str s =>
    have := printJson_length_pos (.str s)
    rw [needFuel]
    omega
  | arr l =>
    have h1 := needElemsNE_le l
    rw [needFuel, printJson]
    simp only [List.length_cons, List.length_append, List.length_cons, List.length_nil]
    omega
  | obj m =>
    have h1 := needMembersNE_le m
    rw [needFuel, printJson]
    simp only [List.length_cons, List.length_append, List.length_cons, List.length_nil]
    omega

theorem needElemsNE_le (l : List Value) : needElemsNE l ≤ 3 * (printElems l).length + 1 := by
  cases l with
  | nil => rw [needElemsNE]; omega
  | cons v tl =>
    cases tl with
    | nil =>
      have h1 := needFuel_le v
      rw [needElemsNE, printElems, needElemsNE]
      omega
    | cons w tl' =>
      have h1 := needFuel_le v
      have h2 := needElemsNE_le (w :: tl')
      rw [needElemsNE, printElems]
      · simp only [List.length_append, List.length_cons]
        omega
      · exact fun h => absurd h (List.cons_ne_nil _ _)

theorem needMembersNE_le (m : List (String × Value)) :
    needMembersNE m ≤ 3 * (printMembers m).length + 1 := by
  cases m with
  | nil => rw [needMembersNE]; omega
  | cons kv tl =>
    obtain ⟨k, v⟩ := kv
    cases tl with
    | nil =>
      have h1 := needFuel_le v
      rw [needMembersNE, printMembers, needMembersNE]
      simp only [List.length_cons, List.length_append]
      omega
    | cons kw tl' =>
      have h1 := needFuel_le v
      have h2 := needMembersNE_le (kw :: tl')
      rw [needMembersNE, printMembers]
      · simp only [List.length_append, List.length_cons]
        omega
      · exact fun h => absurd h (List.cons_ne_nil _ _)

end

theorem jsonLoads_print (v : Value) : jsonLoads ⟨printJson v⟩ = some v := by
  unfold jsonLoads
  have hdata : (String.mk (printJson v)).data = printJson v := rfl
  have hlen : (String.mk (printJson v)).length = (printJson v).length := rfl
  rw [hdata, hlen]
  have hfuel : needFuel v ≤ fuelFor (printJson v).length := by
    have := needFuel_le v
    unfold fuelFor
    omega
  have := (parse_print_all (fuelFor (printJson v).length)).1 v [] hfuel rfl
  rw [List.append_nil] at this
  rw [this]
  rfl

theorem extractSlice_print (l : List Value) :
    extractSlice (printJson (.arr l)) = some (printJson (.arr l)) := by
  rw [show printJson (.arr l) = '[' :: (printElems l ++ [']']) from by rw [printJson]]
  simp only [extractSlice]
  rw [show List.dropWhile (fun c => c != '[') ('[' :: (printElems l ++ [']'])) =
    '[' :: (printElems l ++ [']']) from by rw [List.dropWhile_cons]; simp]
  rw [show ('[' :: (printElems l ++ [']'])).reverse =
    ']' :: ((printElems l).reverse ++ ['[']) from by simp]
  rw [show List.dropWhile (fun c => c != ']') (']' :: ((printElems l).reverse ++ ['['])) =
    ']' :: ((printElems l).reverse ++ ['[']) from by rw [List.dropWhile_cons]; simp]
  simp

theorem extract_json_print (l : List Value) :
    _extract_json ⟨printJson (.arr l)⟩ = l := by
  unfold _extract_json
  rw [show (String.mk (printJson (.arr l))).data = printJson (.arr l) from rfl]
  simp only [extractSlice_print, jsonLoads_print (.arr l)]

/-- A well-formed step object for the validator's fast-path schema
check: a dict carrying both a `tool` and an `args` key. -/
def stepOkB (s : Value) : Bool :=
  match s with
  | .obj f => f.any (fun kv => kv.1 == "tool") && f.any (fun kv => kv.1 == "args")
  | _ => false

theorem checkSteps_all (l : List Value) (h : ∀ s ∈ l, stepOkB s = true) :
    checkSteps l = .ok true := by
  induction l with
  | nil => rfl
  | cons s rest ih =>
    have hs := h s (by simp)
    have ihr := ih (fun s hs' => h s (List.mem_cons_of_mem _ hs'))
    cases s with
    | obj fields =>
      simp only [stepOkB, Bool.and_eq_true] at hs
      have h1 : pyContains "tool" (Value.obj fields) = .ok true := by
        rw [pyContains, hs.1]
      have h2 : pyContains "args" (Value.obj fields) = .ok true := by
        rw [pyContains, hs.2]
      rw [checkSteps]
      simp only [h1, h2, Bool.not_true, if_false, ihr]
      rfl
    | null => simp [stepOkB] at hs
    | bool b => simp [stepOkB] at hs
    | num n => simp [stepOkB] at hs
    | str t => simp [stepOkB] at hs
    | arr l2 => simp [stepOkB] at hs

/-- All strings occurring in a value (keys included) are free of the
control characters other than newline, tab and carriage return, so that
the compact serialization of the value is valid JSON for Python's
`json.loads` as well (raw control characters inside a JSON string are
otherwise rejected by Python but tolerated by the model's parser). -/
def strOkChars : List Char → Bool
  | [] => true
  | c :: r => (decide (32 ≤ c.toNat) || c = '\n' || c = '\t' || c = '\r') && strOkChars r

mutual

/-- Control-character discipline over a whole value. -/
def valueOk : Value → Bool
  | .null => true
  | .bool _ => true
  | .num _ => true
  | .str s => strOkChars s.data
  | .arr l => valueOkList l
  | .obj m => valueOkMembers m

/-- Control-character discipline over array elements. -/
def valueOkList : List Value → Bool
  | [] => true
  | v :: tl => valueOk v && valueOkList tl

/-- Control-character discipline over object members. -/
def valueOkMembers : List (String × Value) → Bool
  | [] => true
  | (k, v) :: tl => strOkChars k.data && valueOk v && valueOkMembers tl

end

/-- Claim C7 counterexample: the raw plan `"[]"` is a syntactically
valid JSON array whose (zero) step objects all vacuously carry both
keys, yet `validate` does not return it unchanged without a model call:
the falsy-list test sends it to the slow path, which issues one model
call (count 1) and returns whatever the model produced (here `[1]`,
not the parsed `[]`). -/
theorem c7_counterexample :
    validate (fun _ => "[1]") "[]" = (.ok [.num 1], 1) ∧
    _extract_json "[]" = ([] : List Value) ∧
    ([Value.num 1] : List Value) ≠ ([] : List Value) :=
  ⟨rfl, rfl, fun h => by cases h⟩

/-- Claim C7 amended: for every NON-EMPTY list of well-formed step
objects (each a dict carrying both a `tool` and an `args` key, strings
control-character-free so the serialization is valid JSON for Python
too), `validate` on its JSON serialization returns exactly that parsed
structure — no argument value is mutated — and issues zero model calls;
the model client `chat` is universally quantified and the result does
not depend on it.  The empty array is the boundary the original claim
missed: it takes the slow path (see the counterexample). -/
theorem c7_fast_path (chat : List (String × String) → String) (l : List Value)
    (hne : l ≠ []) (hsteps : ∀ s ∈ l, stepOkB s = true)
    (hok : valueOk (.arr l) = true) :
    validate chat ⟨printJson (.arr l)⟩ = (.ok l, 0) := by
  have hemp : l.isEmpty = false := by
    cases l with
    | nil => exact absurd rfl hne
    | cons v tl => rfl
  simp only [validate, extract_json_print, hemp, Bool.not_false, if_true,
    checkSteps_all l hsteps]

/-- Witness for the amended claim C7 at the one-step plan
`[{"tool":"echo","args":{}}]`. -/
theorem c7_fast_path_witness :
    validate (fun _ => "repair") ⟨printJson (.arr [Value.obj
      [("tool", .str "echo"), ("args", .obj [])]])⟩ =
      (.ok [Value.obj [("tool", .str "echo"), ("args", .obj [])]], 0) :=
  c7_fast_path (fun _ => "repair") [Value.obj [("tool", .str "echo"), ("args", .obj [])]]
    (List.cons_ne_nil _ _)
    (by intro s hs; rcases List.mem_singleton.mp hs with rfl; rfl)
    (by rfl)
